import Mathlib

/-!
Verification of the ncOrtho ortholog-search pipeline (ncortho.py and
coreset/utils.py) against its natural-language specification.  The Python
source is shallowly embedded: pure fragments become Lean functions, the
stateful candidate loop becomes explicit state passing over a list of
file names, and fallible Python code (raising exceptions) is rendered
with Except.  Scores parsed from search output are modelled as rationals.
-/

namespace NcOrtho

/-! ## Embedding of Python `str.split(sep)` (used by `Mirna.__init__`)

`pySplitF` is a fuel-indexed rendering of CPython's `str.split` with a
non-empty separator: scan left to right, cut at each leftmost
non-overlapping occurrence of the separator.  The fuel is the length of
the string, which always suffices. -/

def pySplitF (sep : List Char) : Nat → List Char → List (List Char)
  | 0, s => [s]
  | _ + 1, [] => [[]]
  | fuel + 1, c :: rest =>
    if !sep.isEmpty && sep.isPrefixOf (c :: rest) then
      [] :: pySplitF sep fuel (List.drop (sep.length - 1) rest)
    else
      match pySplitF sep fuel rest with
      | [] => [[c]]
      | g :: gs => (c :: g) :: gs

/-- Python `s.split(sep)` for a non-empty separator `sep`. -/
def pySplit (sep s : List Char) : List (List Char) :=
  pySplitF sep s.length s

/-- The prefix of `s` that comes before the first occurrence of `sep`
(all of `s` when `sep` does not occur).  This is the specification-side
description of what element 1 of `('chr' ++ rest).split('chr')` is. -/
def beforeFirst (sep : List Char) : List Char → List Char
  | [] => []
  | c :: rest =>
    if sep.isPrefixOf (c :: rest) then [] else c :: beforeFirst sep rest

/-- The literal separator used by `Mirna.__init__`. -/
def chrLit : List Char := ['c', 'h', 'r']

/-- Embedding of the chromosome-name normalization in `Mirna.__init__`:
`chromosome.split('chr')[1]` when the name starts with `'chr'`, the name
unchanged otherwise. -/
def normChromosome (s : List Char) : List Char :=
  if chrLit.isPrefixOf s then (pySplit chrLit s).getD 1 [] else s

/-- Python `seq.replace('U', 'T')`. -/
def replaceUT (s : String) : String :=
  ⟨s.data.map (fun ch => if ch = 'U' then 'T' else ch)⟩

/-- The miRNA record of ncortho.py (class `Mirna`). -/
structure Mirna where
  name : String
  chromosome : String
  startPos : Int
  endPos : Int
  strand : String
  pre : String
  mature : String
  bit : Rat

/-- Embedding of `Mirna.__init__`: normalizes the chromosome name and
replaces uracil by thymine in both sequences. -/
def Mirna.make (name chromosome : String) (startPos endPos : Int)
    (strand pre mature : String) (bit : Rat) : Mirna :=
  { name := name
    chromosome := ⟨normChromosome chromosome.data⟩
    startPos := startPos
    endPos := endPos
    strand := strand
    pre := replaceUT pre
    mature := replaceUT mature
    bit := bit }

/-! ### Lemmas about the split embedding -/

theorem pySplitF_ne_nil (sep : List Char) :
    ∀ (fuel : Nat) (s : List Char), pySplitF sep fuel s ≠ [] := by
  intro fuel
  induction fuel with
  | zero => intro s; simp [pySplitF]
  | succ n ih =>
    intro s
    cases s with
    | nil => simp [pySplitF]
    | cons c rest =>
      simp only [pySplitF]
      by_cases h : (!sep.isEmpty && sep.isPrefixOf (c :: rest)) = true
      · simp [h]
      · simp only [h]
        rcases hrec : pySplitF sep n rest with _ | ⟨g, gs⟩ <;> simp [hrec]

theorem pySplitF_headD (sep : List Char) (hsep : sep ≠ []) :
    ∀ (fuel : Nat) (s : List Char), s.length ≤ fuel →
      (pySplitF sep fuel s).headD [] = beforeFirst sep s := by
  intro fuel
  induction fuel with
  | zero =>
    intro s hs
    have : s = [] := List.length_eq_zero.mp (Nat.le_zero.mp hs)
    subst this
    simp [pySplitF, beforeFirst]
  | succ n ih =>
    intro s hs
    cases s with
    | nil => simp [pySplitF, beforeFirst]
    | cons c rest =>
      have hne : sep.isEmpty = false := by
        cases sep with
        | nil => exact absurd rfl hsep
        | cons a as => rfl
      simp only [pySplitF, hne, Bool.not_false, Bool.true_and]
      by_cases h : sep.isPrefixOf (c :: rest) = true
      · simp [h, beforeFirst]
      · have h' : sep.isPrefixOf (c :: rest) = false := by
          cases hb : sep.isPrefixOf (c :: rest)
          · rfl
          · exact absurd hb h
        have hlen : rest.length ≤ n := by
          simpa [Nat.succ_le_succ_iff] using hs
        have := ih rest hlen
        simp only [h', Bool.false_eq_true, if_false, beforeFirst]
        rcases hrec : pySplitF sep n rest with _ | ⟨g, gs⟩
        · exact absurd hrec (pySplitF_ne_nil sep n rest)
        · rw [hrec] at this
          simp at this
          simp [this]

/-- If the separator never occurs in `rest` (checked at every offset up
to the length), `beforeFirst` returns `rest` whole. -/
theorem beforeFirst_of_no_occurrence (sep : List Char) :
    ∀ (rest : List Char),
      (∀ i < rest.length + 1, sep.isPrefixOf (List.drop i rest) = false) →
      beforeFirst sep rest = rest := by
  intro rest
  induction rest with
  | nil => intro _; rfl
  | cons c r ih =>
    intro h
    have h0 : sep.isPrefixOf (c :: r) = false := by
      have := h 0 (by omega)
      simpa using this
    have hr : ∀ i < r.length + 1, sep.isPrefixOf (List.drop i r) = false := by
      intro i hi
      have := h (i + 1) (by simpa using Nat.succ_lt_succ hi)
      simpa using this
    simp [beforeFirst, h0, ih hr]

theorem normChromosome_append (rest : List Char) :
    normChromosome (chrLit ++ rest) = beforeFirst chrLit rest := by
  have hpre : chrLit.isPrefixOf (chrLit ++ rest) = true := by
    simp [chrLit, List.isPrefixOf]
  simp only [normChromosome, hpre, if_true]
  have hlen : (chrLit ++ rest).length = rest.length + 3 := by
    simp [chrLit]
  have hstep :
      pySplit chrLit (chrLit ++ rest) = [] :: pySplitF chrLit (rest.length + 2) rest := by
    simp only [pySplit, hlen]
    show pySplitF chrLit (rest.length + 2 + 1) ('c' :: 'h' :: 'r' :: rest) = _
    simp [pySplitF, chrLit, List.isPrefixOf]
  rw [hstep]
  have : (pySplitF chrLit (rest.length + 2) rest).headD [] = beforeFirst chrLit rest :=
    pySplitF_headD chrLit (by simp [chrLit]) (rest.length + 2) rest (by omega)
  rcases hrec : pySplitF chrLit (rest.length + 2) rest with _ | ⟨g, gs⟩
  · exact absurd hrec (pySplitF_ne_nil chrLit _ rest)
  · rw [hrec] at this
    simpa using this

/-- Claim C9 counterexample: the claim asserts that for every name
`'chr' ++ rest` the stored chromosome equals `rest`.  For the name
`"chr1chr2"` (rest = `"1chr2"`) the code stores `"1"`, because
`split('chr')[1]` cuts at the second occurrence of `'chr'` as well. -/
theorem chr_strip_counterexample :
    (Mirna.make "mir-1" "chr1chr2" 0 1 "+" "" "" 0).chromosome = "1" ∧
    "chr1chr2" = "chr" ++ "1chr2" ∧ ("1" : String) ≠ "1chr2" := by
  refine ⟨?_, by decide, by decide⟩
  show (⟨normChromosome "chr1chr2".data⟩ : String) = "1"
  decide

/-- Claim C9 (amended): a name not starting with `'chr'` is stored
unchanged; a name `'chr' ++ rest` is stored as the prefix of `rest`
before the next occurrence of `'chr'`, which equals `rest` exactly when
`'chr'` does not occur in `rest`. -/
theorem chr_strip_amended (name : String) (s rest : List Char)
    (sp ep : Int) (st pr ma : String) (bq : Rat) :
    (chrLit.isPrefixOf s = false →
      (Mirna.make name ⟨s⟩ sp ep st pr ma bq).chromosome = ⟨s⟩) ∧
    ((Mirna.make name ⟨chrLit ++ rest⟩ sp ep st pr ma bq).chromosome =
      ⟨beforeFirst chrLit rest⟩) ∧
    ((∀ i < rest.length + 1, chrLit.isPrefixOf (List.drop i rest) = false) →
      (Mirna.make name ⟨chrLit ++ rest⟩ sp ep st pr ma bq).chromosome = ⟨rest⟩) := by
  refine ⟨?_, ?_, ?_⟩
  · intro h
    show (⟨normChromosome s⟩ : String) = ⟨s⟩
    simp [normChromosome, h]
  · show (⟨normChromosome (chrLit ++ rest)⟩ : String) = _
    rw [normChromosome_append]
  · intro h
    show (⟨normChromosome (chrLit ++ rest)⟩ : String) = _
    rw [normChromosome_append, beforeFirst_of_no_occurrence chrLit rest h]

/-- Witness for `chr_strip_amended` at the concrete name `"chr7"`. -/
theorem chr_strip_amended_witness :
    (Mirna.make "mir-7" ⟨chrLit ++ ['7']⟩ 0 1 "+" "" "" 0).chromosome = ⟨['7']⟩ :=
  (chr_strip_amended "mir-7" [] ['7'] 0 1 "+" "" "" 0).2.2 (by decide)

/-! ## Reference-score calibration (`mirna_maker`, ncortho.py lines 136-153)

The cmsearch table file is read and its non-comment lines are split into
fields; field 14 of a line is the bit score of that hit, and cmsearch
writes hits best score first.  The embedding keeps, per line, the parsed
bit score (a rational).  `calibrateScore` returns the stored score and
whether the zero-hit warning was printed; it is a total function, so the
zero-hit branch never aborts the run. -/

def calibrateScore (hits : List Rat) : Rat × Bool :=
  match hits with
  | [] => (0, true)
  | s :: _ => (s, false)

/-- Claim C4 counterexample: the claim asserts the stored score is 0.0
only when the self-search produced zero hits.  A search output whose top
line carries bit score 0.0 is one hit, yet the stored score is 0.0 and
no warning is printed. -/
theorem calibrate_zero_counterexample :
    (calibrateScore [0]).1 = 0 ∧ ([0] : List Rat) ≠ [] ∧
    (calibrateScore [0]).2 = false := by
  refine ⟨rfl, by decide, rfl⟩

/-- Claim C4 (amended): the stored score is 0.0 iff the self-search
produced zero hits or the first hit itself scored 0.0; the warning is
emitted exactly in the zero-hit case; with at least one hit the stored
score is the first hit's score, which dominates all hits when the
output is sorted best score first.  `calibrateScore` is total, so the
zero-hit branch never aborts the run. -/
theorem calibrate_score_amended (hits : List Rat) :
    ((calibrateScore hits).1 = 0 ↔ hits = [] ∨ ∃ s rest, hits = s :: rest ∧ s = 0) ∧
    ((calibrateScore hits).2 = true ↔ hits = []) ∧
    (∀ s rest, hits = s :: rest → (calibrateScore hits).1 = s) ∧
    (List.Pairwise (fun a b : Rat => b ≤ a) hits →
      ∀ x ∈ hits, x ≤ (calibrateScore hits).1 ∨ hits = []) := by
  refine ⟨?_, ?_, ?_, ?_⟩
  · cases hits with
    | nil => simp [calibrateScore]
    | cons s rest =>
      simp only [calibrateScore]
      constructor
      · intro h; exact Or.inr ⟨s, rest, rfl, h⟩
      · rintro (h | ⟨s', rest', heq, hs'⟩)
        · exact absurd h (by simp)
        · cases heq; exact hs'
  · cases hits with
    | nil => simp [calibrateScore]
    | cons s rest => simp [calibrateScore]
  · intro s rest heq
    subst heq
    rfl
  · intro hsort x hx
    cases hits with
    | nil => exact Or.inr rfl
    | cons s rest =>
      left
      rcases List.mem_cons.mp hx with h | h
      · subst h; exact le_refl _
      · exact (List.pairwise_cons.mp hsort).1 x h

/-- Witness for `calibrate_score_amended` at a two-hit search output:
the stored score is the first hit's score. -/
theorem calibrate_score_amended_witness :
    (calibrateScore [42, 17]).1 = 42 :=
  (calibrate_score_amended [42, 17]).2.2.1 42 [17] rfl

/-! ## Candidate cap (`main`, ncortho.py lines 443-448)

`cm_results` is the dict returned by `cmsearcher`, one row per locus,
keyed by locus id.  `cmsearcher` is not part of the two embedded source
files; its contract, modelled from the spec, is that it returns hits
best score first, so the dict's insertion order is descending score.
The cap keeps the first `max_hits` keys in that order:
`{k: cm_results[k] for k in list(cm_results.keys())[:max_hits]}`.
`max_hits` is embedded as an `Option Nat`; `none` and `some 0` are the
falsy Python values (empty string / 0) that disable the cap. -/

structure CmHit where
  rowData : List String
  score : Rat

/-- A cm_results list is sorted best score first (the spec-modelled
cmsearcher contract). -/
def ScoreSorted (l : List (String × CmHit)) : Prop :=
  List.Pairwise (fun a b : String × CmHit => b.2.score ≤ a.2.score) l

/-- Embedding of the cap at ncortho.py lines 446-448. -/
def capHits (max_hits : Option Nat) (cm_results : List (String × CmHit)) :
    List (String × CmHit) :=
  match max_hits with
  | none => cm_results
  | some n =>
    if 0 < n ∧ n < cm_results.length then cm_results.take n else cm_results

/-- Claim C3: when the search returns more loci than an enabled cap N,
the retained candidates are exactly the first N of the descending-score
list — still sorted descending, of length N, and every retained score
dominates every dropped score; when the cap is disabled or at most N
loci were found, the list is retained unchanged. -/
theorem cap_hits_top_n (max_hits : Option Nat) (l : List (String × CmHit))
    (hsort : ScoreSorted l) :
    ScoreSorted (capHits max_hits l) ∧
    (∀ n, max_hits = some n → 0 < n → n < l.length →
      capHits max_hits l = l.take n ∧
      (capHits max_hits l).length = n ∧
      ∀ x ∈ capHits max_hits l, ∀ y ∈ l.drop n, y.2.score ≤ x.2.score) ∧
    (max_hits = none → capHits max_hits l = l) ∧
    (∀ n, max_hits = some n → (n = 0 ∨ l.length ≤ n) → capHits max_hits l = l) := by
  have htake : ∀ n : Nat, ScoreSorted (l.take n) := by
    intro n
    exact List.Pairwise.sublist (List.take_sublist n l) hsort
  have hdom : ∀ n : Nat, ∀ x ∈ l.take n, ∀ y ∈ l.drop n, y.2.score ≤ x.2.score := by
    intro n
    have hsplit : List.Pairwise
        (fun a b : String × CmHit => b.2.score ≤ a.2.score) (l.take n ++ l.drop n) := by
      rw [List.take_append_drop]
      exact hsort
    exact (List.pairwise_append.mp hsplit).2.2
  refine ⟨?_, ?_, ?_, ?_⟩
  · cases max_hits with
    | none => exact hsort
    | some n =>
      simp only [capHits]
      by_cases h : 0 < n ∧ n < l.length
      · rw [if_pos h]; exact htake n
      · rw [if_neg h]; exact hsort
  · intro n heq hn hlen
    subst heq
    have hcond : 0 < n ∧ n < l.length := ⟨hn, hlen⟩
    have hcap : capHits (some n) l = l.take n := by
      simp only [capHits]
      rw [if_pos hcond]
    refine ⟨hcap, ?_, ?_⟩
    · rw [hcap, List.length_take]
      omega
    · rw [hcap]
      exact hdom n
  · intro heq; subst heq; rfl
  · intro n heq hdis
    subst heq
    simp only [capHits]
    rw [if_neg]
    omega

/-- Witness for `cap_hits_top_n`: three loci scored 40, 38, 10 with cap
N = 2 keep exactly the two best, in order. -/
theorem cap_hits_top_n_witness :
    capHits (some 2)
        [("c1", ⟨["r1"], 40⟩), ("c2", ⟨["r2"], 38⟩), ("c3", ⟨["r3"], 10⟩)] =
      [("c1", ⟨["r1"], 40⟩), ("c2", ⟨["r2"], 38⟩), ("c3", ⟨["r3"], 10⟩)].take 2 ∧
    (capHits (some 2)
        [("c1", ⟨["r1"], 40⟩), ("c2", ⟨["r2"], 38⟩), ("c3", ⟨["r3"], 10⟩)]).length = 2 :=
  ⟨(((cap_hits_top_n (some 2)
      [("c1", ⟨["r1"], 40⟩), ("c2", ⟨["r2"], 38⟩), ("c3", ⟨["r3"], 10⟩)]
      (by unfold ScoreSorted; decide)).2.1) 2 rfl (by omega) (by simp)).1,
   (((cap_hits_top_n (some 2)
      [("c1", ⟨["r1"], 40⟩), ("c2", ⟨["r2"], 38⟩), ("c3", ⟨["r3"], 10⟩)]
      (by unfold ScoreSorted; decide)).2.1) 2 rfl (by omega) (by simp)).2.1⟩

/-! ## BLAST database check (`coreset/utils.py`, `check_blastdb`)

The filesystem is modelled as the list of existing paths (as character
lists).  `glob.glob(f'{db_path}*{fe}')` returns the paths matching the
single-star pattern, i.e. whose name is `db_path ++ mid ++ fe` for some
middle part `mid`. -/

/-- Single-star glob pattern match: `f` matches `pre*suf`. -/
def globMatch1 (pre suf f : List Char) : Bool :=
  pre.isPrefixOf f && suf.isSuffixOf (f.drop pre.length)

/-- Embedding of `glob.glob(f'{db_path}*{fe}')` over the modelled
filesystem. -/
def globFiles (fsys : List (List Char)) (pre suf : List Char) : List (List Char) :=
  fsys.filter (fun f => globMatch1 pre suf f)

/-- The three extensions checked by `check_blastdb`. -/
def file_extensions : List (List Char) := ["nhr".data, "nin".data, "nsq".data]

/-- The extension loop of `check_blastdb`: return `false` at the first
extension with no matching file, `true` after the last one. -/
def check_blastdb_go (fsys : List (List Char)) (db_path : List Char) :
    List (List Char) → Bool
  | [] => true
  | fe :: rest =>
    if globFiles fsys db_path fe = [] then false
    else check_blastdb_go fsys db_path rest

/-- Embedding of `check_blastdb(db_path)` from coreset/utils.py. -/
def check_blastdb (fsys : List (List Char)) (db_path : List Char) : Bool :=
  check_blastdb_go fsys db_path file_extensions

theorem globMatch1_iff (pre suf f : List Char) :
    globMatch1 pre suf f = true ↔ ∃ mid, f = pre ++ mid ++ suf := by
  simp only [globMatch1, Bool.and_eq_true, List.isPrefixOf_iff_prefix,
    List.isSuffixOf_iff_suffix]
  constructor
  · rintro ⟨⟨t, ht⟩, hsuf⟩
    have hdrop : f.drop pre.length = t := by
      rw [← ht, List.drop_left]
    rw [hdrop] at hsuf
    rcases hsuf with ⟨mid, hmid⟩
    exact ⟨mid, by rw [← ht, ← hmid, List.append_assoc]⟩
  · rintro ⟨mid, hmid⟩
    subst hmid
    constructor
    · exact ⟨mid ++ suf, by rw [List.append_assoc]⟩
    · rw [List.append_assoc, List.drop_left]
      exact ⟨mid, rfl⟩

theorem check_blastdb_go_iff (fsys : List (List Char)) (db_path : List Char) :
    ∀ exts : List (List Char),
      check_blastdb_go fsys db_path exts = true ↔
        ∀ fe ∈ exts, ∃ f ∈ fsys, globMatch1 db_path fe f = true := by
  intro exts
  induction exts with
  | nil => simp [check_blastdb_go]
  | cons fe rest ih =>
    simp only [check_blastdb_go]
    by_cases h : globFiles fsys db_path fe = []
    · rw [if_pos h]
      simp only [Bool.false_eq_true, false_iff]
      intro hall
      rcases hall fe (List.mem_cons_self fe rest) with ⟨f, hf, hmatch⟩
      have : f ∈ globFiles fsys db_path fe := by
        simp [globFiles, List.mem_filter, hf, hmatch]
      rw [h] at this
      exact absurd this (List.not_mem_nil f)
    · rw [if_neg h]
      rw [ih]
      constructor
      · intro hall fe' hfe'
        rcases List.mem_cons.mp hfe' with heq | hmem
        · subst heq
          rcases List.exists_mem_of_ne_nil _ h with ⟨f, hf⟩
          have := List.mem_filter.mp hf
          exact ⟨f, this.1, this.2⟩
        · exact hall fe' hmem
      · intro hall fe' hfe'
        exact hall fe' (List.mem_cons_of_mem fe hfe')

/-- Claim C10: `check_blastdb(db_path)` returns `true` iff for each of
the three extensions `nhr`, `nin`, `nsq` at least one file exists whose
path matches the pattern `db_path*<extension>`.  The embedding is a
total Bool-valued function of a read-only filesystem, so it returns a
boolean in all cases and modifies nothing. -/
theorem check_blastdb_iff (fsys : List (List Char)) (db_path : List Char) :
    check_blastdb fsys db_path = true ↔
      ∀ fe ∈ file_extensions, ∃ f ∈ fsys, ∃ mid, f = db_path ++ mid ++ fe := by
  rw [check_blastdb, check_blastdb_go_iff]
  constructor
  · intro hall fe hfe
    rcases hall fe hfe with ⟨f, hf, hmatch⟩
    exact ⟨f, hf, (globMatch1_iff db_path fe f).mp hmatch⟩
  · intro hall fe hfe
    rcases hall fe hfe with ⟨f, hf, hmid⟩
    exact ⟨f, hf, (globMatch1_iff db_path fe f).mpr hmid⟩

/-- Witness for `check_blastdb_iff` on a filesystem holding the three
database files `db.nhr`, `db.nin`, `db.nsq`. -/
theorem check_blastdb_iff_witness :
    check_blastdb ["db.nhr".data, "db.nin".data, "db.nsq".data] "db".data = true :=
  (check_blastdb_iff ["db.nhr".data, "db.nin".data, "db.nsq".data] "db".data).mpr
    (by
      intro fe hfe
      simp only [file_extensions, List.mem_cons, List.not_mem_nil, or_false] at hfe
      rcases hfe with h | h | h <;> subst h
      · exact ⟨"db.nhr".data, by simp, ['.'], by decide⟩
      · exact ⟨"db.nin".data, by simp, ['.'], by decide⟩
      · exact ⟨"db.nsq".data, by simp, ['.'], by decide⟩)

/-! ## Reciprocal validation loop (`main`, ncortho.py lines 468-501)

The candidate loop writes a temporary FASTA file, runs blastn into a
temporary output file, evaluates the best hit with `BlastParser`, and —
if cleanup is enabled — removes both files with `os.remove`.
`BlastParser.evaluate_besthit` and `BlastParser.check_coortholog_ref`
live outside the two embedded source files; they are modelled as
per-candidate oracles that either return a boolean or raise (the spec
describes `evaluate_besthit` as the check that the best reverse-BLAST
hit overlaps the reference miRNA's own coordinates).  The filesystem is
the list of existing file names; a Python exception is an
`Except.error` carrying the message and the filesystem at raise time.
Nothing in `main` catches these exceptions. -/

structure Candidate where
  id : String
  seq : String
  score : Rat

structure ValEnv where
  evalBesthit : String → Except String Bool
  checkCoorthRef : String → Except String Bool
  checkCoorthologsRef : Bool
  cleanup : Bool
  blastWrites : String → Bool

def tempFasta (outdir cid : String) : String := outdir ++ "/" ++ cid ++ ".fa"

def blastOutFile (outdir cid : String) : String := outdir ++ "/blast_" ++ cid ++ ".out"

/-- Creating a file: the name is added to the filesystem (idempotent). -/
def insertFile (f : String) (fsys : List String) : List String :=
  if f ∈ fsys then fsys else f :: fsys

/-- Embedding of `os.remove`: deletes the file, or raises
`FileNotFoundError` when it does not exist. -/
def osRemove (f : String) (fsys : List String) :
    Except (String × List String) (List String) :=
  if f ∈ fsys then Except.ok (fsys.erase f)
  else Except.error ("FileNotFoundError: " ++ f, fsys)

/-- The accept / co-ortholog-check / reject branch of the candidate
loop (ncortho.py lines 489-498): accept when `evaluate_besthit` is
true; otherwise, when co-ortholog checking is enabled, accept iff
`check_coortholog_ref` is true; otherwise reject.  Oracle exceptions
propagate. -/
def validateDecision (env : ValEnv) (cid : String) : Except String Bool :=
  match env.evalBesthit cid with
  | Except.error e => Except.error e
  | Except.ok true => Except.ok true
  | Except.ok false =>
    if env.checkCoorthologsRef then env.checkCoorthRef cid
    else Except.ok false

/-- One candidate of the loop body: write the temporary FASTA, run
blastn (which may or may not manage to create its output file), decide
acceptance, then — only on this fall-through path and only when cleanup
is enabled — remove the two temporary files. -/
def processCandidate (env : ValEnv) (outdir : String) (c : Candidate)
    (fsys : List String) : Except (String × List String) (List String × Bool) :=
  let tf := tempFasta outdir c.id
  let fs1 := insertFile tf fsys
  let bo := blastOutFile outdir c.id
  let fs2 := if env.blastWrites c.id then insertFile bo fs1 else fs1
  match validateDecision env c.id with
  | Except.error e => Except.error (e, fs2)
  | Except.ok acc =>
    if env.cleanup then
      match osRemove tf fs2 with
      | Except.error e => Except.error e
      | Except.ok fs3 =>
        match osRemove bo fs3 with
        | Except.error e => Except.error e
        | Except.ok fs4 => Except.ok (fs4, acc)
    else Except.ok (fs2, acc)

/-- The candidate loop: accepted candidates are appended to
`reblast_hits` (dict insertion order); an uncaught exception aborts the
remaining candidates. -/
def candidateLoop (env : ValEnv) (outdir : String) :
    List Candidate → List String → List (String × String) →
    Except (String × List String) (List String × List (String × String))
  | [], fsys, hits => Except.ok (fsys, hits)
  | c :: rest, fsys, hits =>
    match processCandidate env outdir c fsys with
    | Except.error e => Except.error e
    | Except.ok (fs2, acc) =>
      candidateLoop env outdir rest fs2
        (if acc then hits ++ [(c.id, c.seq)] else hits)

/-- The outer per-miRNA iteration of `main`, restricted to the
validation stage: each miRNA contributes its accepted-candidate list;
an exception from one miRNA's candidate loop aborts all later miRNAs,
since `main` has no exception handler. -/
def processAllMirnas (env : ValEnv) (outdir : String) :
    List (List Candidate) → List String →
    Except (String × List String) (List String × List (List (String × String)))
  | [], fsys => Except.ok (fsys, [])
  | cands :: rest, fsys =>
    match candidateLoop env outdir cands fsys [] with
    | Except.error e => Except.error e
    | Except.ok (fs2, hits) =>
      match processAllMirnas env outdir rest fs2 with
      | Except.error e => Except.error e
      | Except.ok (fs3, outs) => Except.ok (fs3, hits :: outs)

/-- Claim C1: when both oracles return normally, a candidate is
accepted iff its best-hit evaluation succeeds, or co-ortholog checking
is enabled and the secondary test passes; equivalently the decision is
exactly `besthit || (flag && coortholog)`, so nothing else — in
particular not the candidate's raw search score, which the decision
never reads — can cause acceptance. -/
theorem reciprocal_acceptance (env : ValEnv) (cid : String) (b bc : Bool)
    (h1 : env.evalBesthit cid = Except.ok b)
    (h2 : env.checkCoorthRef cid = Except.ok bc) :
    (validateDecision env cid = Except.ok true ↔
      (b = true ∨ (env.checkCoorthologsRef = true ∧ bc = true))) ∧
    validateDecision env cid = Except.ok (b || (env.checkCoorthologsRef && bc)) := by
  have hdec : validateDecision env cid =
      Except.ok (b || (env.checkCoorthologsRef && bc)) := by
    simp only [validateDecision, h1]
    cases b with
    | true => rfl
    | false =>
      cases hflag : env.checkCoorthologsRef with
      | true => simp [h2]
      | false => simp
  refine ⟨?_, hdec⟩
  rw [hdec]
  constructor
  · intro h
    have : (b || (env.checkCoorthologsRef && bc)) = true := by
      exact Except.ok.inj h
    rcases Bool.or_eq_true_iff.mp this with h' | h'
    · exact Or.inl h'
    · exact Or.inr (Bool.and_eq_true_iff.mp h')
  · rintro (h | ⟨hf, hb⟩)
    · subst h; rfl
    · rw [hf, hb]
      simp

/-- Witness for `reciprocal_acceptance`: a candidate whose best hit
fails but whose co-ortholog test passes, with checking enabled. -/
theorem reciprocal_acceptance_witness :
    (validateDecision
        ⟨fun _ => Except.ok false, fun _ => Except.ok true, true, true, fun _ => true⟩
        "cand1" = Except.ok true ↔
      (false = true ∨
        ((⟨fun _ => Except.ok false, fun _ => Except.ok true, true, true,
            fun _ => true⟩ : ValEnv).checkCoorthologsRef = true ∧ true = true))) ∧
    validateDecision
        ⟨fun _ => Except.ok false, fun _ => Except.ok true, true, true, fun _ => true⟩
        "cand1" =
      Except.ok (false ||
        ((⟨fun _ => Except.ok false, fun _ => Except.ok true, true, true,
            fun _ => true⟩ : ValEnv).checkCoorthologsRef && true)) :=
  reciprocal_acceptance
    ⟨fun _ => Except.ok false, fun _ => Except.ok true, true, true, fun _ => true⟩
    "cand1" false true rfl rfl

/-! ## Co-ortholog resolution stage (`main`, ncortho.py lines 504-523)

After the candidate loop, `main` computes `out_dict`: nothing when
`reblast_hits` is empty, `reblast_hits` itself when it holds exactly
one entry, and `ReBlastParser(mirna, reblast_hits).verify_coorthologs`
otherwise.  `verify_coorthologs` is outside the embedded source files
and is passed in as an abstract resolver.  The first component records
whether the resolver was invoked. -/

def resolveStage (resolver : List (String × String) → List (String × String))
    (reblast_hits : List (String × String)) :
    Bool × Option (List (String × String)) :=
  if reblast_hits.isEmpty then (false, none)
  else if reblast_hits.length == 1 then (false, some reblast_hits)
  else (true, some (resolver reblast_hits))

/-- Claim C2: the co-ortholog resolver is invoked iff at least two
candidates were accepted; with exactly one accepted candidate the
verified set is the accepted set unchanged and the resolver is not
invoked; with at least two, the verified set is the resolver's output. -/
theorem resolver_invocation
    (resolver : List (String × String) → List (String × String))
    (hits : List (String × String)) :
    ((resolveStage resolver hits).1 = true ↔ 2 ≤ hits.length) ∧
    (hits.length = 1 → resolveStage resolver hits = (false, some hits)) ∧
    (2 ≤ hits.length → (resolveStage resolver hits).2 = some (resolver hits)) := by
  refine ⟨?_, ?_, ?_⟩
  · cases hits with
    | nil => simp [resolveStage]
    | cons a rest =>
      cases rest with
      | nil => simp [resolveStage]
      | cons b rest' => simp [resolveStage]
  · intro hlen
    cases hits with
    | nil => simp at hlen
    | cons a rest =>
      simp only [List.length_cons, Nat.add_left_eq_self, List.length_eq_zero] at hlen
      subst hlen
      simp [resolveStage]
  · intro hlen
    cases hits with
    | nil => simp at hlen
    | cons a rest =>
      cases rest with
      | nil => simp at hlen
      | cons b rest' => simp [resolveStage]

/-- Witness for `resolver_invocation` showing the single-candidate
pass-through and the two-candidate invocation. -/
theorem resolver_invocation_witness :
    resolveStage (fun l => l.take 1) [("c1", "ACGT")] =
      (false, some [("c1", "ACGT")]) ∧
    (resolveStage (fun l => l.take 1) [("c1", "ACGT"), ("c2", "GGCC")]).2 =
      some ((fun l => l.take 1) [("c1", "ACGT"), ("c2", "GGCC")]) :=
  ⟨(resolver_invocation (fun l => l.take 1) [("c1", "ACGT")]).2.1 (by decide),
   (resolver_invocation (fun l => l.take 1)
      [("c1", "ACGT"), ("c2", "GGCC")]).2.2 (by decide)⟩

/-! ## Failure propagation and cleanup (claims C6 and C7)

Concrete environments and candidates used in the counterexamples. -/

def cand1 : Candidate := ⟨"cand1", "ACGT", 40⟩

def cand2 : Candidate := ⟨"cand2", "GGCC", 38⟩

/-- An environment where the best-hit evaluation of `cand1` raises
(e.g. blastn failed and `BlastParser` hits a missing output file) while
every other candidate evaluates to an accepted best hit; cleanup is
disabled. -/
def envFail : ValEnv :=
  ⟨fun cid => if cid = "cand1" then Except.error "OSError in BlastParser" else Except.ok true,
   fun _ => Except.ok false, false, false, fun _ => true⟩

/-- Like `envFail` but with cleanup enabled. -/
def envRaise : ValEnv :=
  ⟨fun _ => Except.error "OSError in BlastParser",
   fun _ => Except.ok false, false, true, fun _ => true⟩

/-- An environment where validation completes (candidate rejected) but
blastn never created its output file, so cleanup's second `os.remove`
raises. -/
def envNoBlastFile : ValEnv :=
  ⟨fun _ => Except.ok false, fun _ => Except.ok false, false, true, fun _ => false⟩

/-- Claim C6 counterexample: with two candidates for the first miRNA
and a second miRNA behind it, an error raised while validating `cand1`
aborts the whole run — the sibling `cand2` and the second miRNA are
never processed — whereas the same run without `cand1` accepts `cand2`.
The claim asserts the sibling and the other miRNA are unaffected. -/
theorem isolation_counterexample :
    processAllMirnas envFail "out" [[cand1, cand2], [cand2]] [] =
      Except.error ("OSError in BlastParser",
        ["out/blast_cand1.out", "out/cand1.fa"]) ∧
    processAllMirnas envFail "out" [[cand2]] [] =
      Except.ok (["out/blast_cand2.out", "out/cand2.fa"],
        [[("cand2", "GGCC")]]) := by
  constructor <;> rfl

/-- Claim C6 (amended): a candidate whose validation completes with a
boolean is accepted or rejected and the loop continues with its
siblings; but a candidate whose processing raises aborts the candidate
loop with that error, and — `main` having no handler — the whole
per-miRNA iteration, so sibling candidates and all later miRNAs are
abandoned. -/
theorem per_candidate_failure_semantics (env : ValEnv) (outdir : String)
    (c : Candidate) (rest : List Candidate) (ms : List (List Candidate))
    (fsys : List String) (hits : List (String × String)) :
    (∀ fs2 acc, processCandidate env outdir c fsys = Except.ok (fs2, acc) →
      candidateLoop env outdir (c :: rest) fsys hits =
        candidateLoop env outdir rest fs2
          (if acc then hits ++ [(c.id, c.seq)] else hits)) ∧
    (∀ e, processCandidate env outdir c fsys = Except.error e →
      candidateLoop env outdir (c :: rest) fsys hits = Except.error e ∧
      processAllMirnas env outdir ((c :: rest) :: ms) fsys = Except.error e) := by
  constructor
  · intro fs2 acc hok
    simp [candidateLoop, hok]
  · intro e herr
    have hloop : ∀ hs, candidateLoop env outdir (c :: rest) fsys hs = Except.error e := by
      intro hs
      simp [candidateLoop, herr]
    refine ⟨hloop hits, ?_⟩
    simp [processAllMirnas, hloop []]

/-- Witness for `per_candidate_failure_semantics` at the concrete
failing environment. -/
theorem per_candidate_failure_semantics_witness :
    candidateLoop envFail "out" [cand1, cand2] [] [] =
      Except.error ("OSError in BlastParser",
        ["out/blast_cand1.out", "out/cand1.fa"]) ∧
    processAllMirnas envFail "out" [[cand1, cand2]] [] =
      Except.error ("OSError in BlastParser",
        ["out/blast_cand1.out", "out/cand1.fa"]) :=
  (per_candidate_failure_semantics envFail "out" cand1 [cand2] [] [] []).2
    ("OSError in BlastParser", ["out/blast_cand1.out", "out/cand1.fa"]) rfl

theorem mem_insertFile (a f : String) (fsys : List String) :
    a ∈ insertFile f fsys ↔ a = f ∨ a ∈ fsys := by
  simp only [insertFile]
  by_cases h : f ∈ fsys
  · rw [if_pos h]
    constructor
    · exact Or.inr
    · rintro (rfl | ha)
      · exact h
      · exact ha
  · rw [if_neg h]
    simp

theorem insertFile_nodup (f : String) (fsys : List String) (h : fsys.Nodup) :
    (insertFile f fsys).Nodup := by
  simp only [insertFile]
  by_cases hf : f ∈ fsys
  · rw [if_pos hf]
    exact h
  · rw [if_neg hf]
    exact List.nodup_cons.mpr ⟨hf, h⟩

/-- Claim C7 counterexample, in two parts.  First, with cleanup enabled
(`envRaise`) an error raised inside validation propagates before the
`if cleanup:` block is reached, so no removal is attempted and both
temporary files are still present in the state carried by the
exception.  Second, with cleanup enabled but the blastn output file
missing (`envNoBlastFile`), the removal itself raises
`FileNotFoundError`, aborting the candidate loop — so a failure of the
removal does fail the pipeline. -/
theorem cleanup_counterexample :
    (processCandidate envRaise "out" cand1 [] =
      Except.error ("OSError in BlastParser",
        ["out/blast_cand1.out", "out/cand1.fa"]) ∧
     "out/cand1.fa" ∈ ["out/blast_cand1.out", "out/cand1.fa"] ∧
     "out/blast_cand1.out" ∈ ["out/blast_cand1.out", "out/cand1.fa"]) ∧
    (processCandidate envNoBlastFile "out" cand1 [] =
      Except.error ("FileNotFoundError: out/blast_cand1.out", []) ∧
     candidateLoop envNoBlastFile "out" [cand1] [] [] =
      Except.error ("FileNotFoundError: out/blast_cand1.out", [])) := by
  exact ⟨⟨rfl, by decide, by decide⟩, rfl, rfl⟩

/-- Claim C7 (amended): with cleanup enabled, removal of the two
per-candidate temporary files is attempted exactly on the normal exit
paths of validation — both files are gone whether the candidate was
accepted or rejected; when validation raises, no removal is attempted
and both files survive in the propagated state; and a failure of the
removal itself (here: the blastn output file was never created) raises
`FileNotFoundError`, which aborts the candidate rather than being
swallowed. -/
theorem cleanup_on_exit_paths (env : ValEnv) (outdir : String) (c : Candidate)
    (fsys : List String) (hnd : fsys.Nodup) (hclean : env.cleanup = true)
    (hneq : tempFasta outdir c.id ≠ blastOutFile outdir c.id) :
    (∀ b, validateDecision env c.id = Except.ok b → env.blastWrites c.id = true →
      ∃ fs4, processCandidate env outdir c fsys = Except.ok (fs4, b) ∧
        tempFasta outdir c.id ∉ fs4 ∧ blastOutFile outdir c.id ∉ fs4) ∧
    (∀ e, validateDecision env c.id = Except.error e → env.blastWrites c.id = true →
      ∃ fs2, processCandidate env outdir c fsys = Except.error (e, fs2) ∧
        tempFasta outdir c.id ∈ fs2 ∧ blastOutFile outdir c.id ∈ fs2) ∧
    (∀ b, env.blastWrites c.id = false → blastOutFile outdir c.id ∉ fsys →
      validateDecision env c.id = Except.ok b →
      processCandidate env outdir c fsys =
        Except.error ("FileNotFoundError: " ++ blastOutFile outdir c.id,
          (insertFile (tempFasta outdir c.id) fsys).erase (tempFasta outdir c.id))) := by
  set tf := tempFasta outdir c.id with htf
  set bo := blastOutFile outdir c.id with hbo
  refine ⟨?_, ?_, ?_⟩
  · intro b hval hbw
    have hfs2nd : (insertFile bo (insertFile tf fsys)).Nodup :=
      insertFile_nodup bo _ (insertFile_nodup tf fsys hnd)
    have htf2 : tf ∈ insertFile bo (insertFile tf fsys) :=
      (mem_insertFile tf bo _).mpr (Or.inr ((mem_insertFile tf tf fsys).mpr (Or.inl rfl)))
    have hbo2 : bo ∈ insertFile bo (insertFile tf fsys) :=
      (mem_insertFile bo bo _).mpr (Or.inl rfl)
    have hbo3 : bo ∈ (insertFile bo (insertFile tf fsys)).erase tf := by
      rw [List.Nodup.mem_erase_iff hfs2nd]
      exact ⟨fun h => hneq h.symm, hbo2⟩
    refine ⟨((insertFile bo (insertFile tf fsys)).erase tf).erase bo, ?_, ?_, ?_⟩
    · simp only [processCandidate, ← htf, ← hbo, hbw, if_true, hval, hclean]
      simp only [osRemove, if_pos htf2, if_pos hbo3]
    · intro hmem
      have h1 : tf ∈ (insertFile bo (insertFile tf fsys)).erase tf :=
        List.mem_of_mem_erase hmem
      rw [List.Nodup.mem_erase_iff hfs2nd] at h1
      exact h1.1 rfl
    · intro hmem
      have hnd3 : ((insertFile bo (insertFile tf fsys)).erase tf).Nodup :=
        List.Nodup.erase tf hfs2nd
      rw [List.Nodup.mem_erase_iff hnd3] at hmem
      exact hmem.1 rfl
  · intro e hval hbw
    refine ⟨insertFile bo (insertFile tf fsys), ?_, ?_, ?_⟩
    · simp only [processCandidate, ← htf, ← hbo, hbw, if_true, hval]
    · exact (mem_insertFile tf bo _).mpr
        (Or.inr ((mem_insertFile tf tf fsys).mpr (Or.inl rfl)))
    · exact (mem_insertFile bo bo _).mpr (Or.inl rfl)
  · intro b hbw hnotin hval
    have htf1 : tf ∈ insertFile tf fsys :=
      (mem_insertFile tf tf fsys).mpr (Or.inl rfl)
    have hbonotin : bo ∉ (insertFile tf fsys).erase tf := by
      intro hmem
      have : bo ∈ insertFile tf fsys := List.mem_of_mem_erase hmem
      rcases (mem_insertFile bo tf fsys).mp this with h | h
      · exact hneq h.symm
      · exact hnotin h
    simp only [processCandidate, ← htf, ← hbo, hbw, Bool.false_eq_true, if_false,
      hval, hclean, if_true]
    simp only [osRemove, if_pos htf1, if_neg hbonotin]

/-- Witness for `cleanup_on_exit_paths`: the removal-failure branch at
the concrete environment `envNoBlastFile`. -/
theorem cleanup_on_exit_paths_witness :
    processCandidate envNoBlastFile "out" cand1 [] =
      Except.error ("FileNotFoundError: " ++ blastOutFile "out" cand1.id,
        (insertFile (tempFasta "out" cand1.id) []).erase (tempFasta "out" cand1.id)) :=
  (cleanup_on_exit_paths envNoBlastFile "out" cand1 [] List.nodup_nil rfl
    (by decide)).2.2 false rfl (List.not_mem_nil _) rfl

/-! ## Output writing (`main`, ncortho.py lines 525-532)

For each verified hit `main` executes

  cmres = list(cm_results[hit]); cmres.insert(qname);
  header = '|'.join(cmres); of.write(...)

Python's `list.insert` has signature `insert(index, object)`; the call
site passes a single argument.  The embedding models the method with
its real arity: called with two arguments (an int index and a value) it
inserts with Python's index clamping, called with any other number of
arguments it raises `TypeError`. -/

inductive PyArg where
  | str (s : String)
  | int (i : Int)

/-- Python `list.insert(index, object)` index clamping: negative
indices count from the end, out-of-range indices clamp. -/
def pyInsertAt (l : List String) (i : Int) (x : String) : List String :=
  let n : Int := l.length
  let idx := if i < 0 then max 0 (n + i) else min i n
  l.take idx.toNat ++ x :: l.drop idx.toNat

/-- A call of the Python method `list.insert` with an argument list. -/
def pyListInsertCall (l : List String) (args : List PyArg) :
    Except String (List String) :=
  match args with
  | [PyArg.int i, PyArg.str x] => Except.ok (pyInsertAt l i x)
  | [_] => Except.error "TypeError: insert expected 2 arguments, got 1"
  | [] => Except.error "TypeError: insert expected 2 arguments, got 0"
  | _ => Except.error "TypeError: insert argument mismatch"

/-- Embedding of the record-writing loop: each verified hit's row is
looked up in `cm_results`, the query name is passed to `insert` as the
single argument (as in the source), the fields are `|`-joined into a
header, and the header and sequence lines are appended to the file
contents. -/
def writeOrthologs (qname : String) (cm_results : List (String × CmHit)) :
    List (String × String) → List String → Except String (List String)
  | [], acc => Except.ok acc
  | (hit, seq) :: rest, acc =>
    let cmres := ((cm_results.lookup hit).getD ⟨[], 0⟩).rowData
    match pyListInsertCall cmres [PyArg.str qname] with
    | Except.error e => Except.error e
    | Except.ok cmres2 =>
      writeOrthologs qname cm_results rest
        (acc ++ [">" ++ String.intercalate "|" cmres2, seq])

/-- Claim C5: writing any nonempty verified set raises
`TypeError: insert expected 2 arguments, got 1`, because
`cmres.insert(qname)` at ncortho.py line 530 passes a single argument
to `list.insert`; so the promised `|`-joined header with the query
identifier inserted is never produced and the run aborts instead. -/
theorem write_insert_type_error (qname : String) (cm_results : List (String × CmHit))
    (hit seq : String) (rest : List (String × String)) (acc : List String) :
    writeOrthologs qname cm_results ((hit, seq) :: rest) acc =
      Except.error "TypeError: insert expected 2 arguments, got 1" := by
  simp [writeOrthologs, pyListInsertCall]

/-! ## Startup configuration checks (`main`, ncortho.py lines 323-407)

`sys.exit(1)` terminates the process with exit status 1;
`sys.exit()` with no argument terminates it with exit status 0.  The
source uses `sys.exit(1)` for the empty-command-line and excess-CPU
checks, and bare `sys.exit()` for every missing-file/directory and
missing-database check.  `startupChecks` returns `some code` when the
run aborts during the checks with that exit status, and `none` when it
proceeds to process miRNAs. -/

structure StartupConfig where
  no_args : Bool
  cpu : Nat
  available_cpu : Nat
  ncrna_isfile : Bool
  reference_isfile : Bool
  query_isfile : Bool
  models_isdir : Bool
  refblast_given : Bool
  refblast_ok : Bool
  heuristic : Bool
  queryblast_given : Bool
  queryblast_ok : Bool

def startupChecks (c : StartupConfig) : Option Nat :=
  if c.no_args then some 1
  else if c.available_cpu < c.cpu then some 1
  else if !c.ncrna_isfile then some 0
  else if !c.reference_isfile then some 0
  else if !c.query_isfile then some 0
  else if !c.models_isdir then some 0
  else if c.refblast_given && !c.refblast_ok then some 0
  else if c.queryblast_given && c.heuristic && !c.queryblast_ok then some 0
  else none

/-- A configuration whose only defect is a missing miRNA input file. -/
def cfgMissingNcrna : StartupConfig :=
  ⟨false, 2, 4, false, true, true, true, false, false, true, false, false⟩

/-- The same configuration with the input file present but the CPU
request exceeding the available cores. -/
def cfgTooManyCpus : StartupConfig :=
  ⟨false, 8, 4, true, true, true, true, false, false, true, false, false⟩

/-- Claim C8: a missing required input file aborts the run via bare
`sys.exit()` — exit status 0, not non-zero as the claim requires —
while the excess-CPU check exits with status 1; a well-formed
configuration passes the checks and proceeds. -/
theorem exit_status_of_config_errors :
    startupChecks cfgMissingNcrna = some 0 ∧
    startupChecks cfgTooManyCpus = some 1 ∧
    startupChecks ⟨false, 2, 4, true, true, true, true, false, false, true,
      false, false⟩ = none := by
  exact ⟨rfl, rfl, rfl⟩

end NcOrtho
